import Mathlib

/-!
Verification of the response-attribute grammar of `utoipa-gen`
(`src/utoipa-gen/src/response.rs`).

The source walks a `syn::ParseStream` of Rust proc-macro tokens.  We embed
the token stream shallowly: a token is an identifier, an integer literal,
a string literal, `=`, `,`, a bracket-delimited group `[...]`, or a
parenthesis-delimited group `(...)` (delimited groups appear as single
tokens to the cursor, exactly as in `proc_macro2`).  Parsers consume a
`List Tok` and return `Except String`, mirroring the fail-fast behaviour
of `syn::Result` together with `proc_macro_error`'s abort helpers: both
are fatal to the parse of the entry, so both are modelled as `.error`
carrying the message the source supplies.
-/

inductive Tok where
  | ident (s : String)
  | litInt (n : Int)
  | litStr (s : String)
  | eq
  | comma
  | bracket (ts : List Tok)
  | paren (ts : List Tok)

/-- `input.peek(Token![=])` followed by a conditional consume. -/
def skipEq : List Tok → List Tok
  | Tok.eq :: tl => tl
  | ts => ts

/-- `input.peek(Token![,])` followed by a conditional consume. -/
def skipComma : List Tok → List Tok
  | Tok.comma :: tl => tl
  | ts => ts

/-- Modelled from the spec: `MediaType` (the parsed type expression) is
declared outside this file's source (`utoipa-gen/src/lib.rs`); spec §3
describes it as `{is_array: bool, type_name: string}` ("TypeReference"). -/
structure MediaType where
  is_array : Bool
  ty : String
deriving DecidableEq, Repr

/-- Modelled from the spec: the `MediaType` parse impl is not under the
given sources; spec §6 gives its grammar
`type_expr := "[" IDENT "]" | IDENT`. -/
def MediaType.parse (toks : List Tok) : Except String (MediaType × List Tok) :=
  match toks with
  | Tok.bracket [Tok.ident t] :: rest => .ok ({ is_array := true, ty := t }, rest)
  | Tok.ident t :: rest => .ok ({ is_array := false, ty := t }, rest)
  | _ => .error "unexpected token, expected type expression"

/-- `Header` record of `response.rs` (fields `name`, `media_type`,
`description`). -/
structure Header where
  name : String
  media_type : Option MediaType
  description : Option String
deriving DecidableEq, Repr

/-- `Response` record of `response.rs`; `#[derive(Default)]` gives
`status_code = 0`, empty description, `None` body and content type, empty
header list.  `status_code` is `i32` in the source; we carry `Int` and
restore the `i32` bound in the parser's status arm (the
`base10_parse::<i32>` range check), so every value reachable from
parsing lies within `i32` and renders identically to Rust's
`i32::to_string`. -/
structure Response where
  status_code : Int
  description : String
  response_type : Option MediaType
  content_type : Option String
  headers : List Header
deriving DecidableEq, Repr

def Response.default : Response :=
  { status_code := 0, description := "", response_type := none,
    content_type := none, headers := [] }

/-- The trailing `if input.peek(syn::Ident)` block of `Header::parse`
(lines 307–328): a remaining identifier must be `description`, optionally
followed by `=`, then a string literal; any other identifier is a hard
error naming it and the sole valid continuation. -/
def headerTrailing (h : Header) (toks : List Tok) : Except String (Header × List Tok) :=
  match toks with
  | Tok.ident d :: rest =>
    if d = "description" then
      match skipEq rest with
      | Tok.litStr s :: rest2 => .ok ({ h with description := some s }, rest2)
      | _ => .error "expected string literal"
    else
      .error ("unexpected attribute: " ++ d ++ ", expected: description")
  | _ => .ok (h, toks)

/-- `Header::parse`: required name string literal, optional `= type`,
optional `,`, then the trailing-identifier block. -/
def Header.parse (toks : List Tok) : Except String (Header × List Tok) :=
  match toks with
  | Tok.litStr n :: rest =>
    let h0 : Header := { name := n, media_type := none, description := none }
    let step1 : Except String (Header × List Tok) :=
      match rest with
      | Tok.eq :: tl =>
        match MediaType.parse tl with
        | .ok (m, rest1) => .ok ({ h0 with media_type := some m }, rest1)
        | .error e => .error e
      | _ => .ok (h0, rest)
    match step1 with
    | .error e => .error e
    | .ok (h1, rest1) => headerTrailing h1 (skipComma rest1)
  | _ => .error "unexpected attribute for Header name, expected LitStr"

/-- `syn::parse2::<Header>` on a group's stream: the `Parse` impl must
consume the whole stream, leftover tokens are an error. -/
def Header.parse2 (toks : List Tok) : Except String Header :=
  match Header.parse toks with
  | .ok (h, []) => .ok h
  | .ok (_, _ :: _) => .error "unexpected token"
  | .error e => .error e

/-- A `proc_macro2::Group` as `syn` parses it: any delimited group
(parentheses or brackets in our token alphabet) exposing its inner
stream. -/
def Tok.groupStream : Tok → Option (List Tok)
  | Tok.paren g => some g
  | Tok.bracket g => some g
  | _ => none

/-- `Punctuated::<Group, Comma>::parse_terminated` inside the brackets of
the `headers` field: delimited groups separated by commas, optional
trailing comma, possibly empty. -/
def parseGroupList : List Tok → Except String (List (List Tok))
  | [] => .ok []
  | t :: rest =>
    match t.groupStream with
    | some g =>
      match rest with
      | [] => .ok [g]
      | Tok.comma :: rest2 =>
        match parseGroupList rest2 with
        | .ok gs => .ok (g :: gs)
        | .error e => .error e
      | _ => .error "expected comma between header groups"
    | none => .error "expected delimited header group"

/-- The `groups.into_iter().map(|g| syn::parse2::<Header>(g.stream())
.unwrap_or_abort()).collect()` step of the `headers` arm: parse each
group's stream as a `Header`, aborting on the first failure. -/
def parseHeaderGroups : List (List Tok) → Except String (List Header)
  | [] => .ok []
  | g :: gs =>
    match Header.parse2 g with
    | .ok h =>
      match parseHeaderGroups gs with
      | .ok hs => .ok (h :: hs)
      | .error e => .error e
    | .error e => .error e

/-- `parse_next` of `response.rs` (lines 145–151): require a literal `=`
(aborting with the source's message, typo included) and then run the
continuation. -/
def parse_next {α : Type} (toks : List Tok) (next : List Tok → Except String α) :
    Except String α :=
  match toks with
  | Tok.eq :: rest => next rest
  | _ => .error "expected euqals sign token (=)"

/-- The error message built in the `_` arm of the field-key match of
`Response::parse` (the `format!` literal spans two source lines: the text
after the interpolated name is a comma, a space, a newline and 20 spaces
of indentation). -/
def unknownFieldMsg (name : String) : String :=
  "unexpected attribute: " ++ name ++
    ", \n                    expected values: status, description, body, content_type, headers"

/-- One iteration of the dispatch `match name { ... }` in
`Response::parse`: given the already-read field key and the remaining
tokens, update the record.  Each recognised key goes through `parse_next`
(so a missing `=` fails there); an unrecognised key errors immediately
with `unknownFieldMsg`.  The `status` arm is
`base10_parse::<i32>().unwrap_or_abort()`: a literal outside the `i32`
range fails to convert and aborts. -/
def parseFieldVal (r : Response) (name : String) (toks : List Tok) :
    Except String (Response × List Tok) :=
  if name = "status" then
    parse_next toks (fun ts =>
      match ts with
      | Tok.litInt n :: rest =>
        if -2147483648 ≤ n ∧ n ≤ 2147483647 then
          .ok ({ r with status_code := n }, rest)
        else
          .error "number too large to fit in target type"
      | _ => .error "expected int literal")
  else if name = "description" then
    parse_next toks (fun ts =>
      match ts with
      | Tok.litStr s :: rest => .ok ({ r with description := s }, rest)
      | _ => .error "expected string literal")
  else if name = "body" then
    parse_next toks (fun ts =>
      match MediaType.parse ts with
      | .ok (m, rest) => .ok ({ r with response_type := some m }, rest)
      | .error e => .error e)
  else if name = "content_type" then
    parse_next toks (fun ts =>
      match ts with
      | Tok.litStr s :: rest => .ok ({ r with content_type := some s }, rest)
      | _ => .error "expected string literal")
  else if name = "headers" then
    parse_next toks (fun ts =>
      match ts with
      | Tok.bracket g :: rest =>
        match parseGroupList g with
        | .ok gs =>
          match parseHeaderGroups gs with
          | .ok hs => .ok ({ r with headers := hs }, rest)
          | .error e => .error e
        | .error _ => .error "expected headers in brackets [..]"
      | _ => .error "expected headers in brackets [..]")
  else
    .error (unknownFieldMsg name)

/-- The `loop` of `Response::parse`: read an identifier as the field key
(aborting with the source's message when none is there), dispatch on it,
consume one optional trailing comma, stop when the input is empty.  The
fuel argument only bounds the iteration count; `Response.parse` supplies
more fuel than any input can consume. -/
def respLoop : Nat → Response → List Tok → Except String Response
  | 0, _, _ => .error "out of fuel"
  | fuel + 1, r, toks =>
    match toks with
    | Tok.ident name :: rest =>
      match parseFieldVal r name rest with
      | .error e => .error e
      | .ok (r', rest') =>
        let rest2 := skipComma rest'
        if rest2.isEmpty then .ok r' else respLoop fuel r' rest2
    | _ => .error "unparseable response expected to find Ident"

/-- `Response::parse` (`impl Parse for Response`). -/
def Response.parse (toks : List Tok) : Except String Response :=
  respLoop (toks.length + 1) Response.default toks

/-!
## The emitter (`Responses::to_tokens` and `new_header_tokens`)

The emitter writes a chain of builder calls
`utoipa::openapi::Responses::new().with_response(status, ...)...`.  We
model the emitted fragment as the data those calls carry, preserving
order: one `ResponseTokens` per response, in input order.  The
`Property`/`ComponentType` machinery lives outside `response.rs`; the
only fact the emitter consumes from it is whether the body type is
primitive, so the emitter is parameterised by that classifier
(`is_primitive : String → Bool`), exactly the external-collaborator
boundary the spec describes.
-/

/-- The tokens `new_header_tokens` produces for one header: a `Property`
built from the header's media type (or the default string header when
absent), plus the optional `.with_description(..)` call. -/
structure HeaderTokens where
  header_type : Option MediaType
  description : Option String
deriving DecidableEq, Repr

/-- `new_header_tokens` (`response.rs` lines 200–223). -/
def new_header_tokens (h : Header) : HeaderTokens :=
  { header_type := h.media_type, description := h.description }

/-- The `.with_response(status, ...)` fragment built for one response:
its status key, description, optional `.with_content(content_type,
property)` call, and `.with_header(name, ...)` calls in order. -/
structure ResponseTokens where
  status : String
  description : String
  content : Option (String × MediaType)
  headers : List (String × HeaderTokens)
deriving DecidableEq, Repr

/-- The per-response body of `Responses::to_tokens` (lines 159–196):
render the status as a decimal string, carry the description, resolve the
content type (explicit `content_type`, else `"text/plain"` for a
primitive body type, else `"application/json"`), and emit the headers in
order. -/
def Responses.emitOne (is_primitive : String → Bool) (r : Response) : ResponseTokens :=
  { status := toString r.status_code
    description := r.description
    content := r.response_type.map (fun mt =>
      (match r.content_type with
       | some ct => ct
       | none => if is_primitive mt.ty then "text/plain" else "application/json",
       mt))
    headers := r.headers.map (fun h => (h.name, new_header_tokens h)) }

/-- `Responses::to_tokens`: fold over the response list in order. -/
def Responses.to_tokens (is_primitive : String → Bool) (rs : List Response) :
    List ResponseTokens :=
  rs.map (Responses.emitOne is_primitive)

/-- Parsing a list of response entries (each entry is one parenthesised
group's token stream, as in the `responses = [...]` attribute) followed
by emission. -/
def pipeline (is_primitive : String → Bool) (tss : List (List Tok)) :
    Except String (List ResponseTokens) :=
  (tss.mapM Response.parse).map (Responses.to_tokens is_primitive)

/-!
## Abstract entries

Several spec properties quantify over well-formed entries ("every
response entry in which ...").  To state them we introduce an abstract
entry — a list of fields with values — together with its canonical
rendering to tokens and the record update each field performs, and prove
that parsing a rendered entry is exactly a left fold of the updates.
-/

/-- An abstract header entry: the data a well-formed header group can
carry. -/
structure HeaderSrc where
  name : String
  ty : Option MediaType
  descr : Option String
deriving DecidableEq, Repr

/-- The `Header` record that parsing a rendered `HeaderSrc` produces. -/
def HeaderSrc.toHeader (h : HeaderSrc) : Header :=
  { name := h.name, media_type := h.ty, description := h.descr }

/-- An abstract response-entry field with its value. -/
inductive FieldV where
  | status (n : Int)
  | descr (s : String)
  | body (m : MediaType)
  | contentType (s : String)
  | headers (hs : List HeaderSrc)
deriving DecidableEq, Repr

/-- The field key an abstract field renders as. -/
def FieldV.key : FieldV → String
  | .status _ => "status"
  | .descr _ => "description"
  | .body _ => "body"
  | .contentType _ => "content_type"
  | .headers _ => "headers"

/-- Token rendering of a type expression. -/
def renderMT (m : MediaType) : List Tok :=
  if m.is_array then [Tok.bracket [Tok.ident m.ty]] else [Tok.ident m.ty]

/-- Token rendering of one header group's stream. -/
def renderHeader (h : HeaderSrc) : List Tok :=
  Tok.litStr h.name ::
    ((match h.ty with
      | some m => Tok.eq :: renderMT m
      | none => []) ++
     (match h.descr with
      | some s => [Tok.comma, Tok.ident "description", Tok.eq, Tok.litStr s]
      | none => []))

/-- Token rendering of the bracketed header list (comma separated, no
trailing comma). -/
def renderHeaderList : List HeaderSrc → List Tok
  | [] => []
  | [h] => [Tok.paren (renderHeader h)]
  | h :: h2 :: t => Tok.paren (renderHeader h) :: Tok.comma :: renderHeaderList (h2 :: t)

/-- Token rendering of a field's value. -/
def FieldV.valToks : FieldV → List Tok
  | .status n => [Tok.litInt n]
  | .descr s => [Tok.litStr s]
  | .body m => renderMT m
  | .contentType s => [Tok.litStr s]
  | .headers hs => [Tok.bracket (renderHeaderList hs)]

/-- Token rendering of one `key = value` field. -/
def renderField (f : FieldV) : List Tok :=
  Tok.ident f.key :: Tok.eq :: f.valToks

/-- Token rendering of a whole entry (fields comma separated, no trailing
comma). -/
def renderEntry : List FieldV → List Tok
  | [] => []
  | [f] => renderField f
  | f :: f2 :: t => renderField f ++ Tok.comma :: renderEntry (f2 :: t)

/-- The record update a field performs — the body of the corresponding
arm of the dispatch in `Response::parse`. -/
def applyField (r : Response) : FieldV → Response
  | .status n => { r with status_code := n }
  | .descr s => { r with description := s }
  | .body m => { r with response_type := some m }
  | .contentType s => { r with content_type := some s }
  | .headers hs => { r with headers := hs.map HeaderSrc.toHeader }

/-- Whether a field's rendered literal survives the source's
`base10_parse::<i32>` conversion: a `status` value must lie within the
`i32` range, every other field is unconstrained. -/
def FieldV.statusInRange : FieldV → Bool
  | .status n => decide (-2147483648 ≤ n ∧ n ≤ 2147483647)
  | _ => true

/-!
## Round-trip: parsing a rendered entry is a fold of field updates
-/

theorem renderMT_parse (m : MediaType) (rest : List Tok) :
    MediaType.parse (renderMT m ++ rest) = .ok (m, rest) := by
  rcases m with ⟨a, t⟩
  cases a <;> rfl

theorem renderHeader_parse (h : HeaderSrc) :
    Header.parse (renderHeader h) = .ok (h.toHeader, []) := by
  rcases h with ⟨n, ty, descr⟩
  cases ty with
  | none =>
    cases descr with
    | none => rfl
    | some s => rfl
  | some m =>
    have hmt : MediaType.parse (renderMT m) = .ok (m, []) := by
      simpa using renderMT_parse m []
    cases descr with
    | none =>
      simp [renderHeader, Header.parse, hmt, skipComma,
        headerTrailing, HeaderSrc.toHeader]
    | some s =>
      simp [renderHeader, Header.parse, renderMT_parse, skipComma,
        headerTrailing, skipEq, HeaderSrc.toHeader]

theorem Header.parse2_render (h : HeaderSrc) :
    Header.parse2 (renderHeader h) = .ok h.toHeader := by
  simp [Header.parse2, renderHeader_parse]

theorem parseGroupList_render :
    ∀ hs : List HeaderSrc, parseGroupList (renderHeaderList hs) = .ok (hs.map renderHeader)
  | [] => rfl
  | [_] => rfl
  | h :: h2 :: t => by
    simp [renderHeaderList, parseGroupList, Tok.groupStream, parseGroupList_render (h2 :: t)]

theorem parseHeaderGroups_render (hs : List HeaderSrc) :
    parseHeaderGroups (hs.map renderHeader) = .ok (hs.map HeaderSrc.toHeader) := by
  induction hs with
  | nil => rfl
  | cons h t ih => simp [parseHeaderGroups, Header.parse2_render, ih]

theorem parseFieldVal_render (r : Response) (f : FieldV) (rest : List Tok)
    (hf : f.statusInRange = true) :
    parseFieldVal r f.key (Tok.eq :: (f.valToks ++ rest)) = .ok (applyField r f, rest) := by
  cases f with
  | status n =>
    have hn : -2147483648 ≤ n ∧ n ≤ 2147483647 :=
      of_decide_eq_true (by simpa [FieldV.statusInRange] using hf)
    simp [FieldV.key, FieldV.valToks, parseFieldVal, parse_next, applyField, hn.1, hn.2]
  | descr s => rfl
  | body m => rcases m with ⟨a, t⟩; cases a <;> rfl
  | contentType s => rfl
  | headers hs =>
    simp [FieldV.key, FieldV.valToks, parseFieldVal, parse_next,
      parseGroupList_render, parseHeaderGroups_render, applyField]

theorem renderEntry_ne_nil (f : FieldV) (t : List FieldV) : renderEntry (f :: t) ≠ [] := by
  cases t <;> simp [renderEntry, renderField]

theorem respLoop_render (fs : List FieldV) :
    ∀ (r : Response) (fuel : Nat), fs.length ≤ fuel →
      (∀ f ∈ fs, FieldV.statusInRange f = true) → fs ≠ [] →
      respLoop fuel r (renderEntry fs) = .ok (fs.foldl applyField r) := by
  induction fs with
  | nil => intro r fuel _ _ hne; exact absurd rfl hne
  | cons f t ih =>
    intro r fuel hf hall _
    cases t with
    | nil =>
      cases fuel with
      | zero => simp at hf
      | succ n =>
        have h6 := parseFieldVal_render r f [] (hall f (by simp))
        simp only [List.append_nil] at h6
        simp [renderEntry, renderField, respLoop, h6, skipComma]
    | cons f2 t2 =>
      cases fuel with
      | zero => simp at hf
      | succ n =>
        have hshape : renderEntry (f :: f2 :: t2) =
            Tok.ident f.key :: Tok.eq :: (f.valToks ++ Tok.comma :: renderEntry (f2 :: t2)) := by
          simp [renderEntry, renderField]
        have h6 := parseFieldVal_render r f (Tok.comma :: renderEntry (f2 :: t2))
          (hall f (by simp))
        have hrec := ih (applyField r f) n
          (by simp at hf ⊢; omega)
          (fun g hg => hall g (List.mem_cons_of_mem f hg)) (by simp)
        cases hE2 : renderEntry (f2 :: t2) with
        | nil => exact absurd hE2 (renderEntry_ne_nil f2 t2)
        | cons x xs =>
          rw [hE2] at h6 hrec
          rw [hshape, hE2]
          simp [respLoop, h6, skipComma, hrec]

theorem length_le_renderEntry : ∀ fs : List FieldV, fs.length ≤ (renderEntry fs).length
  | [] => by simp [renderEntry]
  | [f] => by simp [renderEntry, renderField]
  | f :: f2 :: t => by
    have := length_le_renderEntry (f2 :: t)
    simp [renderEntry, renderField] at this ⊢
    omega

theorem renderEntry_parse (fs : List FieldV) (hne : fs ≠ [])
    (hall : ∀ f ∈ fs, FieldV.statusInRange f = true) :
    Response.parse (renderEntry fs) = .ok (fs.foldl applyField Response.default) :=
  respLoop_render fs Response.default _
    (Nat.le_succ_of_le (length_le_renderEntry fs)) hall hne

/-!
## Last-write-wins: the fold of field updates keeps the last occurrence
-/

/-- The value kept after a sequence of writes: the last element of the
list, or the initial value when no write happened. -/
def lastWins {α : Type} (d : α) : List α → α
  | [] => d
  | a :: l => lastWins a l

theorem lastWins_append_singleton {α : Type} (d a : α) (l : List α) :
    lastWins d (l ++ [a]) = a := by
  induction l generalizing d with
  | nil => rfl
  | cons x xs ih => simpa [lastWins] using ih x

/-- The value a field writes into `status_code`, when it is a `status`
field. -/
def FieldV.statusVal : FieldV → Option Int
  | .status n => some n
  | _ => none

/-- The value a field writes into `description`. -/
def FieldV.descrVal : FieldV → Option String
  | .descr s => some s
  | _ => none

/-- The value a field writes into `response_type`. -/
def FieldV.bodyVal : FieldV → Option MediaType
  | .body m => some m
  | _ => none

/-- The value a field writes into `content_type`. -/
def FieldV.ctVal : FieldV → Option String
  | .contentType s => some s
  | _ => none

/-- The value a field writes into `headers`. -/
def FieldV.headersVal : FieldV → Option (List Header)
  | .headers hs => some (hs.map HeaderSrc.toHeader)
  | _ => none

theorem foldl_applyField_status (fs : List FieldV) (r : Response) :
    (fs.foldl applyField r).status_code =
      lastWins r.status_code (fs.filterMap FieldV.statusVal) := by
  induction fs generalizing r with
  | nil => rfl
  | cons f t ih => cases f <;> simp [applyField, FieldV.statusVal, lastWins, ih]

theorem foldl_applyField_descr (fs : List FieldV) (r : Response) :
    (fs.foldl applyField r).description =
      lastWins r.description (fs.filterMap FieldV.descrVal) := by
  induction fs generalizing r with
  | nil => rfl
  | cons f t ih => cases f <;> simp [applyField, FieldV.descrVal, lastWins, ih]

theorem foldl_applyField_body (fs : List FieldV) (r : Response) :
    (fs.foldl applyField r).response_type =
      lastWins r.response_type ((fs.filterMap FieldV.bodyVal).map some) := by
  induction fs generalizing r with
  | nil => rfl
  | cons f t ih => cases f <;> simp [applyField, FieldV.bodyVal, lastWins, ih]

theorem foldl_applyField_ct (fs : List FieldV) (r : Response) :
    (fs.foldl applyField r).content_type =
      lastWins r.content_type ((fs.filterMap FieldV.ctVal).map some) := by
  induction fs generalizing r with
  | nil => rfl
  | cons f t ih => cases f <;> simp [applyField, FieldV.ctVal, lastWins, ih]

theorem foldl_applyField_headers (fs : List FieldV) (r : Response) :
    (fs.foldl applyField r).headers =
      lastWins r.headers (fs.filterMap FieldV.headersVal) := by
  induction fs generalizing r with
  | nil => rfl
  | cons f t ih => cases f <;> simp [applyField, FieldV.headersVal, lastWins, ih]

/-!
## Claim theorems
-/

/-- C1: for every `Response` whose body is present, the emitter resolves
the effective content type as the explicit `content_type` when set
(regardless of the primitivity classifier), otherwise `"text/plain"` when
the body type is primitive and `"application/json"` otherwise. -/
theorem c1_content_type_resolution (r : Response) (mt : MediaType)
    (hb : r.response_type = some mt) :
    (∀ (p : String → Bool) (ct : String), r.content_type = some ct →
        (Responses.emitOne p r).content = some (ct, mt)) ∧
    (∀ p : String → Bool, r.content_type = none →
        (Responses.emitOne p r).content =
          some (if p mt.ty then "text/plain" else "application/json", mt)) := by
  constructor
  · intro p ct hct
    simp [Responses.emitOne, hb, hct]
  · intro p hct
    simp [Responses.emitOne, hb, hct]

theorem c1_content_type_resolution_witness :
    (Responses.emitOne (fun _ => true)
        { status_code := 200, description := "", headers := [],
          response_type := some { is_array := true, ty := "Foo" },
          content_type := some "text/xml" }).content =
      some ("text/xml", { is_array := true, ty := "Foo" }) :=
  (c1_content_type_resolution _ _ rfl).1 (fun _ => true) "text/xml" rfl

/-- C3: the minimal entry `(status = 200, description = "success
response")` parses to exactly that record and emits one response keyed
`"200"` with the description, no content entry, and no headers. -/
theorem c3_minimal_entry :
    Response.parse [Tok.ident "status", Tok.eq, Tok.litInt 200, Tok.comma,
        Tok.ident "description", Tok.eq, Tok.litStr "success response"] =
      .ok { status_code := 200, description := "success response",
            response_type := none, content_type := none, headers := [] } ∧
    ∀ p : String → Bool,
      Responses.to_tokens p
          [{ status_code := 200, description := "success response",
             response_type := none, content_type := none, headers := [] }] =
        [{ status := "200", description := "success response",
           content := none, headers := [] }] :=
  ⟨rfl, fun _ => rfl⟩

/-- C10: the empty entry fails with the missing-identifier abort message
rather than returning the default record: the loop demands a field key
before it ever checks for end of input, whatever the state. -/
theorem c10_empty_entry :
    Response.parse [] = .error "unparseable response expected to find Ident" ∧
    ∀ (fuel : Nat) (r : Response),
      respLoop (fuel + 1) r [] = .error "unparseable response expected to find Ident" :=
  ⟨rfl, fun _ _ => rfl⟩

/-- C4: any field key outside `{status, description, body, content_type,
headers}` makes the parser fail, at any loop state, with the message that
names the identifier and enumerates the whole accepted vocabulary. -/
theorem c4_unknown_field (name : String) (r : Response) (rest : List Tok) (fuel : Nat)
    (h : name ∉ (["status", "description", "body", "content_type", "headers"] : List String)) :
    respLoop (fuel + 1) r (Tok.ident name :: rest) =
      .error ("unexpected attribute: " ++ name ++
        ", \n                    expected values: status, description, body, content_type, headers") ∧
    Response.parse (Tok.ident name :: rest) =
      .error ("unexpected attribute: " ++ name ++
        ", \n                    expected values: status, description, body, content_type, headers") := by
  simp only [List.mem_cons, List.not_mem_nil, or_false, not_or] at h
  obtain ⟨h1, h2, h3, h4, h5⟩ := h
  have hfv : ∀ r' : Response, parseFieldVal r' name rest = .error (unknownFieldMsg name) := by
    intro r'
    simp [parseFieldVal, h1, h2, h3, h4, h5]
  constructor
  · simp [respLoop, hfv r, unknownFieldMsg]
  · simp [Response.parse, respLoop, hfv Response.default, unknownFieldMsg]

theorem c4_unknown_field_witness :
    Response.parse [Tok.ident "foo", Tok.eq, Tok.litInt 1] =
      .error ("unexpected attribute: " ++ "foo" ++
        ", \n                    expected values: status, description, body, content_type, headers") :=
  (c4_unknown_field "foo" Response.default [Tok.eq, Tok.litInt 1] 0 (by decide)).2

/-- C5: a trailing identifier other than `description` in a header entry
is a hard error naming the identifier and stating that `description` is
the only valid continuation, both at the trailing block itself and
through `Header::parse`. -/
theorem c5_header_unknown_trailing (h : Header) (d : String) (rest : List Tok)
    (hd : d ≠ "description") :
    headerTrailing h (Tok.ident d :: rest) =
      .error ("unexpected attribute: " ++ d ++ ", expected: description") ∧
    ∀ n, Header.parse (Tok.litStr n :: Tok.comma :: Tok.ident d :: rest) =
      .error ("unexpected attribute: " ++ d ++ ", expected: description") := by
  constructor
  · simp [headerTrailing, hd]
  · intro n
    simp [Header.parse, skipComma, headerTrailing, hd]

theorem c5_header_unknown_trailing_witness :
    Header.parse [Tok.litStr "x", Tok.comma, Tok.ident "bogus", Tok.eq, Tok.litStr "y"] =
      .error ("unexpected attribute: " ++ "bogus" ++ ", expected: description") :=
  (c5_header_unknown_trailing { name := "x", media_type := none, description := none }
    "bogus" [Tok.eq, Tok.litStr "y"] (by decide)).2 "x"

/-- C6: a recognised field key that is not followed by `=` fails through
`parse_next` with the syntax-error message referencing the expected `=`
(the message literally contains it). -/
theorem c6_missing_eq (key : String) (r : Response) (rest : List Tok) (fuel : Nat)
    (hk : key ∈ (["status", "description", "body", "content_type", "headers"] : List String))
    (hrest : ∀ tl, rest ≠ Tok.eq :: tl) :
    respLoop (fuel + 1) r (Tok.ident key :: rest) = .error "expected euqals sign token (=)" ∧
    Response.parse (Tok.ident key :: rest) = .error "expected euqals sign token (=)" ∧
    ∃ pre post, "expected euqals sign token (=)" = pre ++ "=" ++ post := by
  have hpn : ∀ (α : Type) (k : List Tok → Except String α),
      parse_next rest k = .error "expected euqals sign token (=)" := by
    intro α k
    cases rest with
    | nil => rfl
    | cons x tl =>
      cases x with
      | eq => exact absurd rfl (hrest tl)
      | ident s => rfl
      | litInt n => rfl
      | litStr s => rfl
      | comma => rfl
      | bracket ts => rfl
      | paren ts => rfl
  simp only [List.mem_cons, List.not_mem_nil, or_false] at hk
  have hfv : ∀ r' : Response, parseFieldVal r' key rest = .error "expected euqals sign token (=)" := by
    intro r'
    rcases hk with rfl | rfl | rfl | rfl | rfl <;> simp [parseFieldVal, hpn]
  refine ⟨?_, ?_, "expected euqals sign token (", ")", rfl⟩
  · simp [respLoop, hfv r]
  · simp [Response.parse, respLoop, hfv Response.default]

theorem c6_missing_eq_witness :
    Response.parse [Tok.ident "status", Tok.litInt 200] =
      .error "expected euqals sign token (=)" :=
  (c6_missing_eq "status" Response.default [Tok.litInt 200] 0 (by decide)
    (by intro tl h; simp at h)).2.1

/-- An entry with no `status` field trivially satisfies the `i32` range
condition of the status literal. -/
theorem statusInRange_of_statusVal_none (f : FieldV) (h : FieldV.statusVal f = none) :
    FieldV.statusInRange f = true := by
  cases f <;> simp_all [FieldV.statusVal, FieldV.statusInRange]

/-- C7: a duplicated field key is not rejected: any rendered entry whose
status literals fit in `i32` (otherwise `base10_parse` aborts before the
duplicate question arises) parses successfully to the left fold of its
field updates, and each record field holds the value of the last
occurrence of its key (the initial default when the key never occurs). -/
theorem c7_last_write_wins (fs : List FieldV) (hne : fs ≠ [])
    (hrange : ∀ f ∈ fs, FieldV.statusInRange f = true) :
    Response.parse (renderEntry fs) = .ok (fs.foldl applyField Response.default) ∧
    (fs.foldl applyField Response.default).status_code =
      lastWins 0 (fs.filterMap FieldV.statusVal) ∧
    (fs.foldl applyField Response.default).description =
      lastWins "" (fs.filterMap FieldV.descrVal) ∧
    (fs.foldl applyField Response.default).response_type =
      lastWins none ((fs.filterMap FieldV.bodyVal).map some) ∧
    (fs.foldl applyField Response.default).content_type =
      lastWins none ((fs.filterMap FieldV.ctVal).map some) ∧
    (fs.foldl applyField Response.default).headers =
      lastWins [] (fs.filterMap FieldV.headersVal) :=
  ⟨renderEntry_parse fs hne hrange, foldl_applyField_status fs _, foldl_applyField_descr fs _,
   foldl_applyField_body fs _, foldl_applyField_ct fs _, foldl_applyField_headers fs _⟩

theorem c7_last_write_wins_witness :
    Response.parse (renderEntry [FieldV.status 1, FieldV.status 2]) =
      .ok { status_code := 2, description := "", response_type := none,
            content_type := none, headers := [] } :=
  ((c7_last_write_wins [FieldV.status 1, FieldV.status 2] (by simp) (by decide)).1).trans
    (by rfl)

/-- C8: an otherwise valid entry with no `status` field parses
successfully with `status_code = 0`, and the emitter keys its fragment by
the string `"0"`. -/
theorem c8_absent_status (p : String → Bool) (fs : List FieldV) (hne : fs ≠ [])
    (habs : ∀ f ∈ fs, FieldV.statusVal f = none) :
    Response.parse (renderEntry fs) = .ok (fs.foldl applyField Response.default) ∧
    (fs.foldl applyField Response.default).status_code = 0 ∧
    (Responses.emitOne p (fs.foldl applyField Response.default)).status = "0" := by
  have hnil : fs.filterMap FieldV.statusVal = [] :=
    List.filterMap_eq_nil_iff.mpr habs
  have hst : (fs.foldl applyField Response.default).status_code = 0 := by
    rw [foldl_applyField_status, hnil]
    rfl
  refine ⟨renderEntry_parse fs hne
    (fun f hf => statusInRange_of_statusVal_none f (habs f hf)), hst, ?_⟩
  simp [Responses.emitOne, hst]
  rfl

theorem c8_absent_status_witness :
    Response.parse (renderEntry [FieldV.descr "d"]) =
      .ok { status_code := 0, description := "d", response_type := none,
            content_type := none, headers := [] } ∧
    (Responses.emitOne (fun _ => false)
        ([FieldV.descr "d"].foldl applyField Response.default)).status = "0" := by
  have h := c8_absent_status (fun _ => false) [FieldV.descr "d"] (by simp) (by decide)
  exact ⟨h.1.trans (by rfl), h.2.2⟩

/-- C9: headers are collected in declaration order during parsing and
emitted in that order, never re-sorted: parsing an entry whose last field
is `headers = [...]` (and whose status literals fit in `i32`, so the
status arm does not abort first) yields exactly the declared header
sequence, and the emitted fragment's header list is its order-preserving
image. -/
theorem c9_header_order (p : String → Bool) (fs : List FieldV) (hs : List HeaderSrc)
    (hrange : ∀ f ∈ fs, FieldV.statusInRange f = true) :
    Response.parse (renderEntry (fs ++ [FieldV.headers hs])) =
      .ok ((fs ++ [FieldV.headers hs]).foldl applyField Response.default) ∧
    ((fs ++ [FieldV.headers hs]).foldl applyField Response.default).headers =
      hs.map HeaderSrc.toHeader ∧
    (Responses.emitOne p ((fs ++ [FieldV.headers hs]).foldl applyField Response.default)).headers =
      (hs.map HeaderSrc.toHeader).map (fun h => (h.name, new_header_tokens h)) ∧
    (Responses.emitOne p
        ((fs ++ [FieldV.headers hs]).foldl applyField Response.default)).headers.map Prod.fst =
      hs.map HeaderSrc.name := by
  have hhd : ((fs ++ [FieldV.headers hs]).foldl applyField Response.default).headers =
      hs.map HeaderSrc.toHeader := by
    rw [foldl_applyField_headers, List.filterMap_append]
    simp [FieldV.headersVal, lastWins_append_singleton]
  have hemit : (Responses.emitOne p
      ((fs ++ [FieldV.headers hs]).foldl applyField Response.default)).headers =
      (hs.map HeaderSrc.toHeader).map (fun h => (h.name, new_header_tokens h)) := by
    show ((fs ++ [FieldV.headers hs]).foldl applyField Response.default).headers.map
        (fun h => (h.name, new_header_tokens h)) = _
    rw [hhd]
  have hall : ∀ f ∈ fs ++ [FieldV.headers hs], FieldV.statusInRange f = true := by
    intro f hf
    rcases List.mem_append.mp hf with h | h
    · exact hrange f h
    · simp only [List.mem_singleton] at h
      subst h
      rfl
  refine ⟨renderEntry_parse _ (by simp) hall, hhd, hemit, ?_⟩
  rw [hemit]
  simp [List.map_map, Function.comp, HeaderSrc.toHeader]

theorem c9_header_order_witness :
    Response.parse (renderEntry
        [FieldV.status 200, FieldV.headers
          [{ name := "a", ty := none, descr := none },
           { name := "b", ty := none, descr := some "d" }]]) =
      .ok { status_code := 200, description := "", response_type := none,
            content_type := none,
            headers := [{ name := "a", media_type := none, description := none },
                        { name := "b", media_type := none, description := some "d" }] } ∧
    (Responses.emitOne (fun _ => false)
        (([FieldV.status 200] ++ [FieldV.headers
          [{ name := "a", ty := none, descr := none },
           { name := "b", ty := none, descr := some "d" }]]).foldl
            applyField Response.default)).headers.map Prod.fst = ["a", "b"] := by
  have h := c9_header_order (fun _ => false) [FieldV.status 200]
    [{ name := "a", ty := none, descr := none },
     { name := "b", ty := none, descr := some "d" }] (by decide)
  exact ⟨h.1.trans (by rfl), h.2.2.2⟩

/-- C2: parsing followed by emission is deterministic — the pipeline is a
pure function, so identical input yields identical output — and output
ordering mirrors input ordering for both the response list (status keys
in input order) and each response's header list. -/
theorem c2_deterministic_emission (p : String → Bool) (tss : List (List Tok)) :
    (∀ o1 o2 : Except String (List ResponseTokens),
        pipeline p tss = o1 → pipeline p tss = o2 → o1 = o2) ∧
    (∀ rs : List Response, tss.mapM Response.parse = .ok rs →
        pipeline p tss = .ok (Responses.to_tokens p rs)) ∧
    (∀ rs : List Response,
        (Responses.to_tokens p rs).map ResponseTokens.status =
          rs.map (fun r => toString r.status_code)) ∧
    (∀ r : Response,
        (Responses.emitOne p r).headers.map Prod.fst = r.headers.map Header.name) := by
  refine ⟨fun o1 o2 h1 h2 => by rw [← h1, ← h2],
    fun rs hrs => by unfold pipeline; rw [hrs]; rfl,
    fun rs => ?_, fun r => ?_⟩
  · simp [Responses.to_tokens, List.map_map, Function.comp, Responses.emitOne]
  · simp [Responses.emitOne, List.map_map, Function.comp]

theorem c2_deterministic_emission_witness :
    pipeline (fun _ => false) [[Tok.ident "status", Tok.eq, Tok.litInt 200]] =
      .ok (Responses.to_tokens (fun _ => false)
        [{ status_code := 200, description := "", response_type := none,
           content_type := none, headers := [] }]) :=
  (c2_deterministic_emission (fun _ => false)
      [[Tok.ident "status", Tok.eq, Tok.litInt 200]]).2.1
    [{ status_code := 200, description := "", response_type := none,
       content_type := none, headers := [] }] (by rfl)
